import Mathlib

/-!
Shallow embedding of the codeatlas dependency analyzer
(`src/codeatlas/deps/analyzer.py`) together with the pieces of
`src/codeatlas/ingest/git_repo.py` (FileRecord, RepoInfo) it consumes.

Strings are modelled as `List Char` (`Str`): this keeps every operation a
plain structural recursion that the kernel can evaluate.  Python `pathlib`
pure-path semantics (`/` join, `parent`, `with_suffix`, `resolve`,
`relative_to`, `str`) are embedded on a `PPath` structure whose parts list
mirrors `PurePosixPath._parts` (empty and `.` segments removed at parse
time, `..` kept).  The filesystem that backs `Path.exists`, `Path.is_file`
and `Path.read_text` is an explicit finite list of entries, plus the
process working directory that `Path.resolve` uses.  Python exceptions
that the analyzer can raise or catch are an explicit `Err` type and
fallible code returns `Except Err`.
-/

/-- Python `str` values are modelled as lists of characters. -/
abbrev Str := List Char

/-- Regex `\w` (word character); the model is ASCII-only. -/
def isWordChar (c : Char) : Bool := c.isAlphanum || c == '_'

/-- Regex `\s` / `str.strip` whitespace (ASCII subset of Python's set). -/
def isSpaceChar (c : Char) : Bool :=
  c == ' ' || c == '\t' || c == '\n' || c == '\r' || c == '\x0b' || c == '\x0c'

/-- Line terminators recognised by Python `str.splitlines`. -/
def isLineBreak (c : Char) : Bool :=
  c == '\n' || c == '\r' || c == '\x0b' || c == '\x0c' ||
  c == '\x1c' || c == '\x1d' || c == '\x1e' || c == '\u0085' ||
  c == '\u2028' || c == '\u2029'

/-- The single-quote character (apostrophe), used by the quote classes. -/
def squote : Char := Char.ofNat 39

/-- Regex class matching either quote character. -/
def isQuote (c : Char) : Bool := c == squote || c == '"'

/-- Match a literal prefix, returning the rest of the input. -/
def dropLit : Str → Str → Option Str
  | [], s => some s
  | _ :: _, [] => none
  | c :: cs, x :: xs => if x = c then dropLit cs xs else none

/-- Regex `\s+`: at least one whitespace character, consumed greedily. -/
def skipSpaces1 (s : Str) : Option Str :=
  match s with
  | c :: rest => if isSpaceChar c then some (rest.dropWhile isSpaceChar) else none
  | [] => none

/-- Greedy nonempty run of characters satisfying `p` (regex `X+`). -/
def takeWhile1 (p : Char → Bool) (s : Str) : Option (Str × Str) :=
  let t := s.takeWhile p
  if t.isEmpty then none else some (t, s.dropWhile p)

/-- Python `str.split(sep)` for a one-character separator: keeps empty parts. -/
def splitOnChar (c : Char) : Str → List Str
  | [] => [[]]
  | x :: xs =>
    match splitOnChar c xs with
    | [] => [[]]
    | h :: t => if x = c then [] :: h :: t else (x :: h) :: t

/-- Python `str.strip()`. -/
def pyStrip (s : Str) : Str :=
  ((s.dropWhile isSpaceChar).reverse.dropWhile isSpaceChar).reverse

/-- Python `str.startswith`. -/
def pyStartsWith (s pre : Str) : Bool := pre.isPrefixOf s

/-- Python `str.splitlines()` (terminator ends a line, `\r\n` counts once,
trailing text without a terminator is a final line, `""` gives `[]`). -/
def splitlinesGo : Str → Str → List Str
  | [], acc => if acc.isEmpty then [] else [acc.reverse]
  | '\r' :: '\n' :: rest, acc => acc.reverse :: splitlinesGo rest []
  | c :: rest, acc =>
    if isLineBreak c then acc.reverse :: splitlinesGo rest []
    else splitlinesGo rest (c :: acc)

def pySplitlines (s : Str) : List Str := splitlinesGo s []

/-- Python `str.replace("::", "/")`, left to right, non-overlapping. -/
def replaceColons : Str → Str
  | ':' :: ':' :: rest => '/' :: replaceColons rest
  | c :: rest => c :: replaceColons rest
  | [] => []

/-- `list(set(deps))`: deduplication.  CPython's set iteration order is
unspecified, so the model fixes first-occurrence order and only set-level
consequences are proved about results that pass through it. -/
def pySetList : List Str → List Str
  | [] => []
  | x :: xs => x :: (pySetList xs).filter (fun y => y ≠ x)

/-! ## Pure POSIX paths (`pathlib.PurePosixPath`) -/

/-- A pure POSIX path: the `absolute` flag models a leading `/`, `parts`
mirrors `PurePosixPath` components (no empty or `.` components, `..`
kept literally). -/
structure PPath where
  absolute : Bool
  parts : List Str
deriving DecidableEq, Repr

/-- `PurePosixPath(s)`: parse a string. -/
def parsePath (s : Str) : PPath :=
  ⟨decide (s.head? = some '/'),
   (splitOnChar '/' s).filter (fun seg => decide (seg ≠ [] ∧ seg ≠ ['.']))⟩

/-- `p / q`: joining with an absolute right operand replaces the left. -/
def pDiv (p q : PPath) : PPath :=
  if q.absolute then q else ⟨p.absolute, p.parts ++ q.parts⟩

/-- `Path.parent`. -/
def pParent (p : PPath) : PPath := ⟨p.absolute, p.parts.dropLast⟩

/-- `Path.name`: the final component, `""` for `/` and `.`. -/
def pName (p : PPath) : Str := (p.parts.getLast?).getD []

/-- Index of the last `.` inside a name, if any. -/
def lastDotIdx (name : Str) : Option Nat :=
  match name.reverse.findIdx? (fun c => c == '.') with
  | some j => some (name.length - 1 - j)
  | none => none

/-- `Path.suffix` of a name: `name[i:]` for the last dot at `0 < i < len-1`,
else empty (a leading dot or trailing dot is not a suffix). -/
def pyNameSuffix (name : Str) : Str :=
  match lastDotIdx name with
  | some i => if 0 < i ∧ i < name.length - 1 then name.drop i else []
  | none => []

/-- Collapse `..` components against their parent (what `os.path`
resolution does for an absolute path; at the root `..` is absorbed). -/
def normParts (l : List Str) : List Str :=
  l.foldl (fun acc seg => if seg = ['.', '.'] then acc.dropLast else acc ++ [seg]) []

/-- `Path.resolve()` (no symlinks in the model): absolutize against the
process working directory and collapse `..`. -/
def pResolve (cwd : List Str) (p : PPath) : PPath :=
  ⟨true, normParts (if p.absolute then p.parts else cwd ++ p.parts)⟩

/-- `Path.relative_to(base)`: `none` models the `ValueError` raised when
`base` is not a prefix. -/
def pRelativeTo (p base : PPath) : Option PPath :=
  if p.absolute = base.absolute ∧ base.parts.isPrefixOf p.parts then
    some ⟨false, p.parts.drop base.parts.length⟩
  else none

/-- `str(path)`. -/
def pathStr (p : PPath) : Str :=
  if p.absolute then '/' :: List.intercalate ['/'] p.parts
  else if p.parts.isEmpty then ['.']
  else List.intercalate ['/'] p.parts

/-! ## Errors and filesystem -/

/-- The Python exceptions this subsystem raises or catches. -/
inductive Err
  | valueError
  | unicodeDecodeError
  | fileNotFoundError
  | permissionError
  | isADirectoryError
deriving DecidableEq, Repr

/-- What `read_text` finds in a regular file: decodable text, or one of
the failures the spec lists for content reads. -/
inductive FData
  | content (text : Str)
  | decodeError
  | permissionError
deriving DecidableEq, Repr

/-- A filesystem entry at an absolute path (path = component list). -/
inductive FSEntry
  | file (path : List Str) (data : FData)
  | dir (path : List Str)
deriving DecidableEq, Repr

def entryPath : FSEntry → List Str
  | .file p _ => p
  | .dir p => p

/-- The read-only filesystem visible to the analyzer, plus the process
working directory used by `Path.resolve`. -/
structure FS where
  cwd : List Str
  entries : List FSEntry
deriving DecidableEq, Repr

/-- Normalise a path the way the OS does before a stat/open. -/
def fsNorm (fs : FS) (p : PPath) : List Str :=
  normParts (if p.absolute then p.parts else fs.cwd ++ p.parts)

/-- `Path.exists()` (the root directory always exists). -/
def fsExistsB (fs : FS) (p : PPath) : Bool :=
  let q := fsNorm fs p
  q.isEmpty || fs.entries.any (fun e => entryPath e == q)

/-- `Path.is_file()`. -/
def fsIsFileB (fs : FS) (p : PPath) : Bool :=
  let q := fsNorm fs p
  fs.entries.any (fun e =>
    match e with
    | .file pa _ => pa == q
    | .dir _ => false)

/-- `Path.read_text(encoding="utf-8")`. -/
def readText (fs : FS) (p : PPath) : Except Err Str :=
  let q := fsNorm fs p
  match fs.entries.find? (fun e => entryPath e == q) with
  | some (.file _ (.content t)) => .ok t
  | some (.file _ .decodeError) => .error .unicodeDecodeError
  | some (.file _ .permissionError) => .error .permissionError
  | some (.dir _) => .error .isADirectoryError
  | none => .error .fileNotFoundError

/-! ## Language scanners (`_extract_*_deps` regex layer)

Each Python regex used by the analyzer is embedded as a hand-rolled
matcher for that fixed pattern.  All the patterns are deterministic once
the greedy/lazy operator semantics are unfolded (character classes never
overlap the text that must follow them), except the `.*?` in the ES6
pattern for imports, where the engine's backtracking order (greedy `\s+`
shrinking, lazy `.*?` growing) is reproduced literally. -/

/-- `re.match(r"^import\s+(\w+)", line)`: the captured module name. -/
def matchPyImport (line : Str) : Option Str :=
  match dropLit "import".toList line with
  | none => none
  | some r1 =>
    match skipSpaces1 r1 with
    | none => none
    | some r2 =>
      match takeWhile1 isWordChar r2 with
      | none => none
      | some (m, _) => some m

/-- Character class `[\w.]`. -/
def isDottedChar (c : Char) : Bool := isWordChar c || c == '.'

/-- `re.match(r"^from\s+([\w.]+)\s+import", line)`: the captured module. -/
def matchPyFrom (line : Str) : Option Str := do
  let r1 ← dropLit "from".toList line
  let r2 ← skipSpaces1 r1
  let (m, r3) ← takeWhile1 isDottedChar r2
  let r4 ← skipSpaces1 r3
  let _ ← dropLit "import".toList r4
  pure m

/-- `re.match(r"^from\s+\.+([\w.]*)\s+import", line)`: the capture after
the leading dots (greedy `\.+` takes every leading dot first). -/
def matchPyFromRel (line : Str) : Option Str := do
  let r1 ← dropLit "from".toList line
  let r2 ← skipSpaces1 r1
  let (_, r3) ← takeWhile1 (fun c => c == '.') r2
  let cap := r3.takeWhile isDottedChar
  let r4 := r3.dropWhile isDottedChar
  let r5 ← skipSpaces1 r4
  let _ ← dropLit "import".toList r5
  pure cap

/-- Tail `\s+from\s+['"]([^'"]+)['"]` of the ES6 import pattern. -/
def matchFromTail (s : Str) : Option (Str × Str) := do
  let r1 ← skipSpaces1 s
  let r2 ← dropLit "from".toList r1
  let r3 ← skipSpaces1 r2
  match r3 with
  | q :: r4 =>
    if isQuote q then do
      let (cap, r5) ← takeWhile1 (fun c => !(isQuote c)) r4
      match r5 with
      | q2 :: r6 => if isQuote q2 then some (cap, r6) else none
      | [] => none
    else none
  | [] => none

/-- Lazy `.*?` before the tail: try the tail at the current position,
else skip one non-newline character (regex `.` does not match `\n`). -/
def lazyDots : Str → Option (Str × Str)
  | [] => none
  | c :: t =>
    match matchFromTail (c :: t) with
    | some out => some out
    | none => if c = '\n' then none else lazyDots t

/-- Greedy `\s+` after `import`: try consuming `k` whitespace characters
for `k` from the maximal run down to 1 (the engine's backtracking order),
handing the rest to the lazy scan. -/
def tryImportSpaces : Nat → Str → Option (Str × Str)
  | 0, _ => none
  | k + 1, r =>
    match lazyDots (r.drop (k + 1)) with
    | some out => some out
    | none => tryImportSpaces k r

/-- One anchored attempt of `import\s+.*?\s+from\s+['"]([^'"]+)['"]`. -/
def jsTryImportAt (s : Str) : Option (Str × Str) :=
  match dropLit "import".toList s with
  | none => none
  | some r => tryImportSpaces (r.takeWhile isSpaceChar).length r

/-- One anchored attempt of `require\s*\(['"]([^'"]+)['"]\)`. -/
def jsTryRequireAt (s : Str) : Option (Str × Str) := do
  let r1 ← dropLit "require".toList s
  let r2 := r1.dropWhile isSpaceChar
  match r2 with
  | '(' :: r3 =>
    match r3 with
    | q :: r4 =>
      if isQuote q then do
        let (cap, r5) ← takeWhile1 (fun c => !(isQuote c)) r4
        match r5 with
        | q2 :: ')' :: r6 => if isQuote q2 then some (cap, r6) else none
        | _ => none
      else none
    | [] => none
  | _ => none

/-- `re.finditer`: leftmost non-overlapping matches, scanning forward one
character after a failed anchored attempt.  The fuel is the input length;
each successful step consumes at least one character (guarded). -/
def findIter (step : Str → Option (Str × Str)) : Nat → Str → List Str
  | 0, _ => []
  | _ + 1, [] => []
  | n + 1, s =>
    match step s with
    | some (cap, rest) =>
      if rest.length < s.length then cap :: findIter step n rest else [cap]
    | none =>
      match s with
      | [] => []
      | _ :: t => findIter step n t

/-- One anchored attempt of the Go pattern `import\s+["']([^"']+)["']`. -/
def goTryImportAt (s : Str) : Option (Str × Str) := do
  let r1 ← dropLit "import".toList s
  let r2 ← skipSpaces1 r1
  match r2 with
  | q :: r3 =>
    if isQuote q then do
      let (cap, r4) ← takeWhile1 (fun c => !(isQuote c)) r3
      match r4 with
      | q2 :: r5 => if isQuote q2 then some (cap, r5) else none
      | [] => none
    else none
  | [] => none

/-- `re.search(r'["\']([^"\']+)["\']', stripped)`: first match anywhere. -/
def searchQuoted : Str → Option Str
  | [] => none
  | c :: rest =>
    if isQuote c then
      match takeWhile1 (fun x => !(isQuote x)) rest with
      | some (cap, r2) =>
        match r2 with
        | q2 :: _ => if isQuote q2 then some cap else searchQuoted rest
        | [] => searchQuoted rest
      | none => searchQuoted rest
    else searchQuoted rest

/-- One anchored attempt of `use\s+(?:crate|super|self)::([\w:]+)`. -/
def rustTryUseAt (s : Str) : Option (Str × Str) := do
  let r1 ← dropLit "use".toList s
  let r2 ← skipSpaces1 r1
  let r3 ← dropLit "crate".toList r2 <|> dropLit "super".toList r2 <|>
    dropLit "self".toList r2
  let r4 ← dropLit "::".toList r3
  takeWhile1 (fun c => isWordChar c || c == ':') r4

/-- One anchored attempt of `mod\s+(\w+)\s*;`. -/
def rustTryModAt (s : Str) : Option (Str × Str) := do
  let r1 ← dropLit "mod".toList s
  let r2 ← skipSpaces1 r1
  let (cap, r3) ← takeWhile1 isWordChar r2
  match r3.dropWhile isSpaceChar with
  | ';' :: r5 => some (cap, r5)
  | _ => none

/-! ## Module resolvers (`_resolve_*`) -/

/-- The extension loop shared by the Python and JS resolvers:
`test_path = potential_path.with_suffix(ext) if ext else potential_path`,
first candidate with `full_path.exists() and full_path.is_file()` wins.
`with_suffix` raises `ValueError` on a path with an empty name. -/
def pWithSuffix (p : PPath) (suffix : Str) : Except Err PPath :=
  let name := pName p
  if name.isEmpty then .error .valueError
  else
    let old := pyNameSuffix name
    let newName :=
      if old.isEmpty then name ++ suffix
      else name.take (name.length - old.length) ++ suffix
    .ok ⟨p.absolute, p.parts.dropLast ++ [newName]⟩

def tryExts (fs : FS) (rp : PPath) (p : PPath) : List Str → Except Err (Option Str)
  | [] => .ok none
  | ext :: rest =>
    match (if ext.isEmpty then Except.ok p else pWithSuffix p ext : Except Err PPath) with
    | .error e => .error e
    | .ok t =>
      if fsExistsB fs (pDiv rp t) && fsIsFileB fs (pDiv rp t) then .ok (some (pathStr t))
      else tryExts fs rp p rest

/-- `"/".join(module_parts)`. -/
def joinSlash (parts : List Str) : Str := List.intercalate ['/'] parts

/-- Extensions tried by `_resolve_python_module` / `_resolve_python_relative`. -/
def pyExts : List Str := [[], ".py".toList]

/-- Extensions tried by `_resolve_js_module`. -/
def jsExts : List Str :=
  [[], ".js".toList, ".ts".toList, ".jsx".toList, ".tsx".toList, ".vue".toList]

/-- `DependencyAnalyzer._resolve_python_module`. -/
def resolvePythonModule (fs : FS) (rp : PPath) (fd : PPath) (module : Str) :
    Except Err (Option Str) :=
  let module_parts := splitOnChar '.' module
  let potential := pDiv fd (parsePath (joinSlash module_parts))
  match tryExts fs rp potential pyExts with
  | .error e => .error e
  | .ok (some s) => .ok (some s)
  | .ok none =>
    let initPath := pDiv potential (parsePath "__init__.py".toList)
    if fsExistsB fs (pDiv rp initPath) then .ok (some (pathStr initPath))
    else
      let rootPath := parsePath (joinSlash module_parts)
      tryExts fs rp rootPath pyExts

/-- `DependencyAnalyzer._resolve_python_relative`. -/
def resolvePythonRelative (fs : FS) (rp : PPath) (fd : PPath) (rel_module : Str) :
    Except Err (Option Str) :=
  if rel_module.isEmpty then
    let initPath := pDiv fd (parsePath "__init__.py".toList)
    if fsExistsB fs (pDiv rp initPath) then .ok (some (pathStr initPath)) else .ok none
  else
    tryExts fs rp (pDiv fd (parsePath (joinSlash (splitOnChar '.' rel_module)))) pyExts

/-- `DependencyAnalyzer._resolve_js_module`.  The `relative_to` failure is
caught (`ValueError` → skip); the extension loop sits outside the `try`. -/
def resolveJsModule (fs : FS) (rp : PPath) (fd : PPath) (module : Str) :
    Except Err (Option Str) :=
  if !(pyStartsWith module ['.']) && !(pyStartsWith module ['/']) then .ok none
  else if pyStartsWith module ['.'] then
    match pRelativeTo (pResolve fs.cwd (pDiv fd (parsePath module))) rp with
    | none => .ok none
    | some potential => tryExts fs rp potential jsExts
  else
    tryExts fs rp (parsePath (module.dropWhile (fun c => c == '/'))) jsExts

/-- `DependencyAnalyzer._resolve_rust_module`. -/
def resolveRustModule (fs : FS) (rp : PPath) (fd : PPath) (module : Str) : Option Str :=
  let potential := pDiv fd (parsePath (module ++ ".rs".toList))
  if fsExistsB fs (pDiv rp potential) then some (pathStr potential)
  else
    let modPath := pDiv (pDiv fd (parsePath module)) (parsePath "mod.rs".toList)
    if fsExistsB fs (pDiv rp modPath) then some (pathStr modPath) else none

/-- `DependencyAnalyzer._resolve_go_package`.  The `relative_to` call is
not wrapped in a `try`, so its `ValueError` propagates. -/
def resolveGoPackage (fs : FS) (rp : PPath) (fd : PPath) (package : Str) :
    Except Err (Option Str) :=
  if !(pyStartsWith package ['.']) && !(package.any (fun c => c == '/')) then .ok none
  else if pyStartsWith package ['.'] then
    match pRelativeTo (pResolve fs.cwd (pDiv fd (parsePath package))) rp with
    | none => .error .valueError
    | some potential =>
      if fsExistsB fs (pDiv rp potential) && fsIsFileB fs (pDiv rp potential) then
        .ok (some (pathStr potential))
      else .ok none
  else .ok none

/-! ## Extraction per language -/

/-- Resolve a list of raw references in order, keeping the successful
ones (the `if dep_path: deps.append(dep_path)` loop); a raised exception
aborts the whole extraction. -/
def collectSome {α : Type} (f : α → Except Err (Option Str)) :
    List α → Except Err (List Str)
  | [] => .ok []
  | x :: xs =>
    match f x with
    | .error e => .error e
    | .ok r =>
      match collectSome f xs with
      | .error e => .error e
      | .ok rest =>
        match r with
        | some d => .ok (d :: rest)
        | none => .ok rest

/-- One stripped line of `_extract_python_deps`: blank/comment lines are
skipped, then the three patterns are tried in source order (the second
pattern also matches dot-led modules, since `[\w.]` contains the dot). -/
def extractPythonLine (fs : FS) (rp : PPath) (fd : PPath) (rawLine : Str) :
    Except Err (Option Str) :=
  let line := pyStrip rawLine
  if line.isEmpty || pyStartsWith line ['#'] then .ok none
  else
    match matchPyImport line with
    | some m => resolvePythonModule fs rp fd m
    | none =>
      match matchPyFrom line with
      | some m => resolvePythonModule fs rp fd m
      | none =>
        match matchPyFromRel line with
        | some m => resolvePythonRelative fs rp fd m
        | none => .ok none

/-- `DependencyAnalyzer._extract_python_deps`. -/
def extractPythonDeps (fs : FS) (rp : PPath) (rel_path content : Str) :
    Except Err (List Str) :=
  let fd := pParent (parsePath rel_path)
  match collectSome (extractPythonLine fs rp fd) (pySplitlines content) with
  | .error e => .error e
  | .ok ds => .ok (pySetList ds)

/-- `DependencyAnalyzer._extract_js_deps`. -/
def extractJsDeps (fs : FS) (rp : PPath) (rel_path content : Str) :
    Except Err (List Str) :=
  let fd := pParent (parsePath rel_path)
  let imports := findIter jsTryImportAt content.length content
  let requires := findIter jsTryRequireAt content.length content
  match collectSome (resolveJsModule fs rp fd) imports with
  | .error e => .error e
  | .ok d1 =>
    match collectSome (resolveJsModule fs rp fd) requires with
    | .error e => .error e
    | .ok d2 => .ok (pySetList (d1 ++ d2))

/-- `DependencyAnalyzer._extract_rust_deps` (no exceptions possible). -/
def extractRustDeps (fs : FS) (rp : PPath) (rel_path content : Str) : List Str :=
  let fd := pParent (parsePath rel_path)
  let uses := (findIter rustTryUseAt content.length content).filterMap
    (fun m => resolveRustModule fs rp fd (replaceColons m))
  let mods := (findIter rustTryModAt content.length content).filterMap
    (fun m => resolveRustModule fs rp fd m)
  pySetList (uses ++ mods)

/-- The `import ( ... )` block scan of `_extract_go_deps`: a stripped
line starting with `import (` opens a block and is itself skipped; inside
a block, `)` closes it and any other line contributes its first quoted
string. -/
def goBlockLines : List Str → Bool → List Str
  | [], _ => []
  | line :: rest, inBlock =>
    let stripped := pyStrip line
    if pyStartsWith stripped "import (".toList then goBlockLines rest true
    else if inBlock then
      if stripped = [')'] then goBlockLines rest false
      else
        match searchQuoted stripped with
        | some cap => cap :: goBlockLines rest true
        | none => goBlockLines rest true
    else goBlockLines rest inBlock

/-- `DependencyAnalyzer._extract_go_deps`. -/
def extractGoDeps (fs : FS) (rp : PPath) (rel_path content : Str) :
    Except Err (List Str) :=
  let fd := pParent (parsePath rel_path)
  let singles := findIter goTryImportAt content.length content
  let blocks := goBlockLines (pySplitlines content) false
  match collectSome (resolveGoPackage fs rp fd) singles with
  | .error e => .error e
  | .ok d1 =>
    match collectSome (resolveGoPackage fs rp fd) blocks with
    | .error e => .error e
    | .ok d2 => .ok (pySetList (d1 ++ d2))

/-! ## The analyzer -/

/-- `ingest.git_repo.FileRecord` (fields used by the analyzer). -/
structure FileRecord where
  rel_path : Str
  language : Str
  size_bytes : Nat
deriving DecidableEq, Repr

/-- `ingest.git_repo.RepoInfo`, restricted to the fields the analyzer
reads (`path` and `files`; the fork/token metadata plays no role here). -/
structure RepoInfo where
  path : PPath
  files : List FileRecord
deriving DecidableEq, Repr

/-- `DependencyAnalyzer._should_analyze`. -/
def shouldAnalyze (r : FileRecord) : Bool :=
  ["python".toList, "javascript".toList, "typescript".toList,
   "rust".toList, "go".toList].any (fun l => l == r.language)

/-- `DependencyAnalyzer._extract_dependencies` dispatch. -/
def extractDependencies (fs : FS) (rp : PPath) (r : FileRecord) (content : Str) :
    Except Err (List Str) :=
  if r.language = "python".toList then extractPythonDeps fs rp r.rel_path content
  else if r.language = "javascript".toList ∨ r.language = "typescript".toList then
    extractJsDeps fs rp r.rel_path content
  else if r.language = "rust".toList then .ok (extractRustDeps fs rp r.rel_path content)
  else if r.language = "go".toList then extractGoDeps fs rp r.rel_path content
  else .ok []

/-- The two `defaultdict(list)` maps, as insertion-ordered assoc lists
(CPython dicts preserve insertion order; assignment keeps the slot). -/
abbrev DepMap := List (Str × List Str)

/-- `d.get(k, dflt)` — never inserts. -/
def dictGet : DepMap → Str → List Str → List Str
  | [], _, dflt => dflt
  | e :: t, k, dflt => if e.1 = k then e.2 else dictGet t k dflt

/-- `d[k] = v`. -/
def dictSet : DepMap → Str → List Str → DepMap
  | [], k, v => [(k, v)]
  | e :: t, k, v => if e.1 = k then (k, v) :: t else e :: dictSet t k v

/-- `d[k].append(x)` on a `defaultdict(list)`. -/
def dictAppend : DepMap → Str → Str → DepMap
  | [], k, x => [(k, [x])]
  | e :: t, k, x => if e.1 = k then (e.1, e.2 ++ [x]) :: t else e :: dictAppend t k x

/-- The analyzer's mutable state: forward and reverse maps. -/
structure AnalyzerState where
  dependencies : DepMap
  dependents : DepMap
deriving DecidableEq, Repr

def emptyState : AnalyzerState := ⟨[], []⟩

/-- `self.dependencies[record.rel_path] = deps` followed by the reverse
update `self.dependents[dep].append(record.rel_path)` for each dep. -/
def updateState (st : AnalyzerState) (a : Str) (ds : List Str) : AnalyzerState :=
  { dependencies := dictSet st.dependencies a ds
    dependents := ds.foldl (fun m d => dictAppend m d a) st.dependents }

/-- The body of the `analyze` loop for one record: skip unsupported
languages, read content catching exactly `UnicodeDecodeError` and
`FileNotFoundError`, then extract; a skipped record behaves like an
empty dep list (no state change either way). -/
def recordResult (fs : FS) (rp : PPath) (r : FileRecord) : Except Err (List Str) :=
  if shouldAnalyze r then
    match readText fs (pDiv rp (parsePath r.rel_path)) with
    | .error e =>
      if e = .unicodeDecodeError ∨ e = .fileNotFoundError then .ok [] else .error e
    | .ok content => extractDependencies fs rp r content
  else .ok []

/-- The `for record in self.repo_info.files` loop of `analyze`. -/
def analyzeList (fs : FS) (rp : PPath) : List FileRecord → AnalyzerState →
    Except Err AnalyzerState
  | [], st => .ok st
  | r :: t, st =>
    match recordResult fs rp r with
    | .error e => .error e
    | .ok ds =>
      analyzeList fs rp t (if ds.isEmpty then st else updateState st r.rel_path ds)

/-- `DependencyAnalyzer.analyze`, from the freshly-constructed state. -/
def analyze (repo : RepoInfo) (fs : FS) : Except Err AnalyzerState :=
  analyzeList fs repo.path repo.files emptyState

/-- `get_file_dependencies`: a `.get` lookup; returns the value and the
(unchanged) state, making the absence of mutation explicit. -/
def get_file_dependencies (st : AnalyzerState) (p : Str) : List Str × AnalyzerState :=
  (dictGet st.dependencies p [], st)

/-- `get_file_dependents`. -/
def get_file_dependents (st : AnalyzerState) (p : Str) : List Str × AnalyzerState :=
  (dictGet st.dependents p [], st)

/-! ## Characterising the maps built by `analyze` -/

/-- The dep list a record contributes when its processing succeeds
(errors never reach the map-update code, so they contribute nothing). -/
def okDeps (fs : FS) (rp : PPath) (r : FileRecord) : List Str :=
  match recordResult fs rp r with
  | .ok ds => ds
  | .error _ => []

/-- The forward-map entry left for key `a` after processing a list of
records: the last record with `rel_path = a` and a nonempty dep list
wins (assignment overwrites). -/
def depsAfter (fs : FS) (rp : PPath) : List FileRecord → Str → Option (List Str)
  | [], _ => none
  | r :: t, a =>
    match depsAfter fs rp t a with
    | some ds => some ds
    | none =>
      if r.rel_path = a ∧ okDeps fs rp r ≠ [] then some (okDeps fs rp r) else none

theorem dictGet_set_self (d : DepMap) (k : Str) (v dflt : List Str) :
    dictGet (dictSet d k v) k dflt = v := by
  induction d with
  | nil => simp [dictSet, dictGet]
  | cons e t ih =>
    by_cases h : e.1 = k
    · simp [dictSet, dictGet, h]
    · simp [dictSet, dictGet, h, ih]

theorem dictGet_set_ne (d : DepMap) (k a : Str) (v dflt : List Str) (h : a ≠ k) :
    dictGet (dictSet d k v) a dflt = dictGet d a dflt := by
  induction d with
  | nil => simp [dictSet, dictGet, Ne.symm h]
  | cons e t ih =>
    by_cases he : e.1 = k
    · subst he
      simp [dictSet, dictGet, Ne.symm h]
    · simp only [dictSet, if_neg he, dictGet]
      by_cases ha : e.1 = a
      · simp [ha]
      · simp [ha, ih]

theorem mem_dictGet_dictAppend (d : DepMap) (k x b z : Str) :
    z ∈ dictGet (dictAppend d k x) b [] ↔
      z ∈ dictGet d b [] ∨ (b = k ∧ z = x) := by
  induction d with
  | nil =>
    by_cases hb : b = k
    · subst hb; simp [dictAppend, dictGet]
    · simp [dictAppend, dictGet, Ne.symm hb, hb]
  | cons e t ih =>
    by_cases he : e.1 = k
    · subst he
      by_cases hb : e.1 = b
      · simp [dictAppend, dictGet, hb, List.mem_append]
      · simp only [dictAppend, if_pos rfl, dictGet, if_neg hb]
        constructor
        · exact fun h => Or.inl h
        · rintro (h | ⟨rfl, rfl⟩)
          · exact h
          · exact absurd rfl hb
    · simp only [dictAppend, if_neg he, dictGet]
      by_cases hb : e.1 = b
      · simp only [if_pos hb]
        constructor
        · exact fun h => Or.inl h
        · rintro (h | ⟨rfl, rfl⟩)
          · exact h
          · exact absurd hb he
      · simp [hb, ih]

theorem mem_dictGet_foldlAppend (ds : List Str) (m0 : DepMap) (a b x : Str) :
    x ∈ dictGet (ds.foldl (fun m d => dictAppend m d a) m0) b [] ↔
      x ∈ dictGet m0 b [] ∨ (b ∈ ds ∧ x = a) := by
  induction ds generalizing m0 with
  | nil => simp
  | cons d ds ih =>
    rw [List.foldl_cons, ih, mem_dictGet_dictAppend]
    simp only [List.mem_cons, or_and_right]
    tauto

theorem analyzeList_dependencies (fs : FS) (rp : PPath) (l : List FileRecord)
    (st0 st : AnalyzerState) (h : analyzeList fs rp l st0 = .ok st) (a : Str) :
    dictGet st.dependencies a [] =
      (depsAfter fs rp l a).getD (dictGet st0.dependencies a []) := by
  induction l generalizing st0 with
  | nil =>
    simp only [analyzeList, Except.ok.injEq] at h
    subst h
    simp [depsAfter]
  | cons r t ih =>
    simp only [analyzeList] at h
    split at h
    · simp at h
    · rename_i ds hr
      have hok : okDeps fs rp r = ds := by simp [okDeps, hr]
      by_cases hds : ds = []
      · subst hds
        simp only [List.isEmpty_nil, if_pos rfl] at h
        rw [ih _ h]
        simp only [depsAfter, hok]
        cases hda : depsAfter fs rp t a with
        | some ds2 => simp
        | none => simp
      · have hemp : ds.isEmpty = false := by
          simpa [List.isEmpty_iff] using hds
        rw [hemp] at h
        simp only [Bool.false_eq_true, if_false] at h
        rw [ih _ h]
        simp only [depsAfter, hok]
        cases hda : depsAfter fs rp t a with
        | some ds2 => simp
        | none =>
          simp only [Option.getD_none]
          by_cases ha : r.rel_path = a
          · rw [if_pos ⟨ha, hds⟩]
            subst ha
            simp [updateState, dictGet_set_self]
          · rw [if_neg (fun hc => ha hc.1)]
            simp [updateState, dictGet_set_ne _ _ _ _ _ (Ne.symm ha)]

theorem analyzeList_dependents (fs : FS) (rp : PPath) (l : List FileRecord)
    (st0 st : AnalyzerState) (h : analyzeList fs rp l st0 = .ok st) (b x : Str) :
    x ∈ dictGet st.dependents b [] ↔
      x ∈ dictGet st0.dependents b [] ∨
        ∃ r ∈ l, r.rel_path = x ∧ b ∈ okDeps fs rp r := by
  induction l generalizing st0 with
  | nil =>
    simp only [analyzeList, Except.ok.injEq] at h
    subst h
    simp
  | cons r t ih =>
    simp only [analyzeList] at h
    split at h
    · simp at h
    · rename_i ds hr
      have hok : okDeps fs rp r = ds := by simp [okDeps, hr]
      by_cases hds : ds = []
      · subst hds
        simp only [List.isEmpty_nil, if_pos rfl] at h
        rw [ih _ h]
        constructor
        · rintro (hm | ⟨r2, hr2, hrel, hbd⟩)
          · exact Or.inl hm
          · exact Or.inr ⟨r2, List.mem_cons_of_mem r hr2, hrel, hbd⟩
        · rintro (hm | ⟨r2, hr2, hrel, hbd⟩)
          · exact Or.inl hm
          · rcases List.mem_cons.mp hr2 with heq | hr2t
            · subst heq
              rw [hok] at hbd
              cases hbd
            · exact Or.inr ⟨r2, hr2t, hrel, hbd⟩
      · have hemp : ds.isEmpty = false := by
          simpa [List.isEmpty_iff] using hds
        rw [hemp] at h
        simp only [Bool.false_eq_true, if_false] at h
        rw [ih _ h]
        simp only [updateState] at *
        rw [mem_dictGet_foldlAppend]
        constructor
        · rintro ((hm | ⟨hb, rfl⟩) | ⟨r2, hr2, hrel, hbd⟩)
          · exact Or.inl hm
          · exact Or.inr ⟨r, List.mem_cons_self r t, rfl, by rw [hok]; exact hb⟩
          · exact Or.inr ⟨r2, List.mem_cons_of_mem r hr2, hrel, hbd⟩
        · rintro (hm | ⟨r2, hr2, hrel, hbd⟩)
          · exact Or.inl (Or.inl hm)
          · rcases List.mem_cons.mp hr2 with heq | hr2t
            · subst heq
              rw [hok] at hbd
              exact Or.inl (Or.inr ⟨hbd, hrel.symm⟩)
            · exact Or.inr ⟨r2, hr2t, hrel, hbd⟩

theorem depsAfter_some (fs : FS) (rp : PPath) (l : List FileRecord) (a : Str)
    (ds : List Str) (h : depsAfter fs rp l a = some ds) :
    ∃ r ∈ l, r.rel_path = a ∧ okDeps fs rp r = ds ∧ ds ≠ [] := by
  induction l with
  | nil => cases h
  | cons r t ih =>
    simp only [depsAfter] at h
    cases hda : depsAfter fs rp t a with
    | some ds2 =>
      rw [hda] at h
      cases h
      obtain ⟨r2, hr2, hp⟩ := ih hda
      exact ⟨r2, List.mem_cons_of_mem r hr2, hp⟩
    | none =>
      rw [hda] at h
      by_cases hc : r.rel_path = a ∧ okDeps fs rp r ≠ []
      · rw [if_pos hc] at h
        cases h
        exact ⟨r, List.mem_cons_self r t, hc.1, rfl, hc.2⟩
      · rw [if_neg hc] at h
        cases h

theorem depsAfter_none (fs : FS) (rp : PPath) (l : List FileRecord) (a : Str)
    (h : ∀ r ∈ l, r.rel_path = a → okDeps fs rp r = []) :
    depsAfter fs rp l a = none := by
  induction l with
  | nil => rfl
  | cons r t ih =>
    simp only [depsAfter]
    rw [ih (fun r2 hr2 => h r2 (List.mem_cons_of_mem r hr2))]
    rw [if_neg]
    rintro ⟨ha, hne⟩
    exact hne (h r (List.mem_cons_self r t) ha)

theorem depsAfter_of_mem (fs : FS) (rp : PPath) (l : List FileRecord) (a : Str)
    (hnd : (l.map FileRecord.rel_path).Nodup) (r : FileRecord) (hr : r ∈ l)
    (ha : r.rel_path = a) (hne : okDeps fs rp r ≠ []) :
    depsAfter fs rp l a = some (okDeps fs rp r) := by
  induction l with
  | nil => cases hr
  | cons r0 t ih =>
    have hnd0 : r0.rel_path ∉ t.map FileRecord.rel_path ∧
        (t.map FileRecord.rel_path).Nodup := by
      rw [List.map_cons, List.nodup_cons] at hnd
      exact hnd
    simp only [depsAfter]
    rcases List.mem_cons.mp hr with heq | hrt
    · subst heq
      have hnone : depsAfter fs rp t a = none := by
        apply depsAfter_none
        intro r2 hr2 ha2
        by_contra hne2
        exact hnd0.1 (by
          rw [← ha2] at ha
          rw [ha]
          exact List.mem_map_of_mem FileRecord.rel_path hr2)
      rw [hnone, if_pos ⟨ha, hne⟩]
    · rw [ih hnd0.2 hrt]

theorem mem_dependencies_iff (repo : RepoInfo) (fs : FS) (st : AnalyzerState)
    (hnd : (repo.files.map FileRecord.rel_path).Nodup)
    (h : analyze repo fs = .ok st) (p x : Str) :
    x ∈ (get_file_dependencies st p).1 ↔
      ∃ r ∈ repo.files, r.rel_path = p ∧ x ∈ okDeps fs repo.path r := by
  have hchar := analyzeList_dependencies fs repo.path repo.files emptyState st h p
  simp only [get_file_dependencies]
  rw [hchar]
  constructor
  · intro hx
    cases hda : depsAfter fs repo.path repo.files p with
    | none => rw [hda] at hx; simp [emptyState, dictGet] at hx
    | some ds =>
      rw [hda] at hx
      obtain ⟨r, hr, hrel, hds, _⟩ := depsAfter_some _ _ _ _ _ hda
      exact ⟨r, hr, hrel, by rw [hds]; exact hx⟩
  · rintro ⟨r, hr, hrel, hx⟩
    have hne : okDeps fs repo.path r ≠ [] := fun hh => by simp [hh] at hx
    rw [depsAfter_of_mem fs repo.path repo.files p hnd r hr hrel hne]
    exact hx

theorem mem_dependents_iff (repo : RepoInfo) (fs : FS) (st : AnalyzerState)
    (h : analyze repo fs = .ok st) (b x : Str) :
    x ∈ (get_file_dependents st b).1 ↔
      ∃ r ∈ repo.files, r.rel_path = x ∧ b ∈ okDeps fs repo.path r := by
  have hchar := analyzeList_dependents fs repo.path repo.files emptyState st h b x
  simp only [get_file_dependents]
  rw [hchar]
  simp [emptyState, dictGet]

/-! ## Every recorded edge target passed an existence check -/

/-- A dep string is the `str()` of a path whose join with the repo path
exists on the filesystem (each resolver `return` is guarded by at least
`full_path.exists()` on `repo_path / test_path`). -/
def TargetOk (fs : FS) (rp : PPath) (t : Str) : Prop :=
  ∃ q : PPath, t = pathStr q ∧ fsExistsB fs (pDiv rp q) = true

theorem mem_pySetList (l : List Str) (x : Str) : x ∈ pySetList l ↔ x ∈ l := by
  induction l with
  | nil => simp [pySetList]
  | cons a l ih =>
    simp only [pySetList, List.mem_cons, List.mem_filter, ih]
    constructor
    · rintro (rfl | ⟨hx, _⟩)
      · exact Or.inl rfl
      · exact Or.inr hx
    · rintro (rfl | hx)
      · exact Or.inl rfl
      · by_cases hxa : x = a
        · exact Or.inl hxa
        · exact Or.inr ⟨hx, by simpa using hxa⟩

theorem collectSome_mem {α : Type} (f : α → Except Err (Option Str)) (xs : List α)
    (ds : List Str) (h : collectSome f xs = .ok ds) (t : Str) (ht : t ∈ ds) :
    ∃ x ∈ xs, f x = .ok (some t) := by
  induction xs generalizing ds with
  | nil =>
    simp only [collectSome, Except.ok.injEq] at h
    subst h
    cases ht
  | cons x xs ih =>
    simp only [collectSome] at h
    split at h
    · cases h
    · rename_i r hfx
      split at h
      · cases h
      · rename_i rest hrest
        split at h
        · rename_i d
          cases h
          rcases List.mem_cons.mp ht with rfl | htr
          · exact ⟨x, List.mem_cons_self x xs, hfx⟩
          · obtain ⟨x2, hx2, hfx2⟩ := ih rest hrest htr
            exact ⟨x2, List.mem_cons_of_mem x hx2, hfx2⟩
        · cases h
          obtain ⟨x2, hx2, hfx2⟩ := ih _ hrest ht
          exact ⟨x2, List.mem_cons_of_mem x hx2, hfx2⟩

theorem tryExts_target (fs : FS) (rp p : PPath) (exts : List Str) (s : Str)
    (h : tryExts fs rp p exts = .ok (some s)) : TargetOk fs rp s := by
  induction exts with
  | nil => simp [tryExts] at h
  | cons ext rest ih =>
    simp only [tryExts] at h
    split at h
    · cases h
    · rename_i tp htp
      split at h
      · rename_i hchk
        simp only [Except.ok.injEq, Option.some.injEq] at h
        subst h
        exact ⟨tp, rfl, (Bool.and_eq_true _ _ |>.mp hchk).1⟩
      · exact ih h

theorem resolvePythonModule_target (fs : FS) (rp fd : PPath) (m s : Str)
    (h : resolvePythonModule fs rp fd m = .ok (some s)) : TargetOk fs rp s := by
  unfold resolvePythonModule at h
  simp only [] at h
  split at h
  · cases h
  · rename_i s1 htry
    simp only [Except.ok.injEq, Option.some.injEq] at h
    subst h
    exact tryExts_target _ _ _ _ _ htry
  · split at h
    · rename_i hex
      simp only [Except.ok.injEq, Option.some.injEq] at h
      subst h
      exact ⟨_, rfl, hex⟩
    · exact tryExts_target _ _ _ _ _ h

theorem resolvePythonRelative_target (fs : FS) (rp fd : PPath) (m s : Str)
    (h : resolvePythonRelative fs rp fd m = .ok (some s)) : TargetOk fs rp s := by
  unfold resolvePythonRelative at h
  simp only [] at h
  split at h
  · split at h
    · rename_i hex
      simp only [Except.ok.injEq, Option.some.injEq] at h
      subst h
      exact ⟨_, rfl, hex⟩
    · cases h
  · exact tryExts_target _ _ _ _ _ h

theorem resolveJsModule_target (fs : FS) (rp fd : PPath) (m s : Str)
    (h : resolveJsModule fs rp fd m = .ok (some s)) : TargetOk fs rp s := by
  unfold resolveJsModule at h
  split at h
  · cases h
  · split at h
    · split at h
      · cases h
      · exact tryExts_target _ _ _ _ _ h
    · exact tryExts_target _ _ _ _ _ h

theorem resolveGoPackage_target (fs : FS) (rp fd : PPath) (m s : Str)
    (h : resolveGoPackage fs rp fd m = .ok (some s)) : TargetOk fs rp s := by
  unfold resolveGoPackage at h
  split at h
  · cases h
  · split at h
    · split at h
      · cases h
      · rename_i hchk
        split at h
        · simp only [Except.ok.injEq, Option.some.injEq] at h
          subst h
          rename_i hc
          exact ⟨_, rfl, (Bool.and_eq_true _ _ |>.mp hc).1⟩
        · cases h
    · cases h

theorem resolveRustModule_target (fs : FS) (rp fd : PPath) (m s : Str)
    (h : resolveRustModule fs rp fd m = some s) : TargetOk fs rp s := by
  unfold resolveRustModule at h
  simp only [] at h
  split at h
  · rename_i hex
    cases h
    exact ⟨_, rfl, hex⟩
  · split at h
    · rename_i hex
      cases h
      exact ⟨_, rfl, hex⟩
    · cases h

theorem extractPythonLine_target (fs : FS) (rp fd : PPath) (line t : Str)
    (h : extractPythonLine fs rp fd line = .ok (some t)) : TargetOk fs rp t := by
  unfold extractPythonLine at h
  simp only [] at h
  split at h
  · cases h
  · split at h
    · exact resolvePythonModule_target _ _ _ _ _ h
    · split at h
      · exact resolvePythonModule_target _ _ _ _ _ h
      · split at h
        · exact resolvePythonRelative_target _ _ _ _ _ h
        · cases h

theorem extractPythonDeps_target (fs : FS) (rp : PPath) (rel content : Str)
    (ds : List Str) (h : extractPythonDeps fs rp rel content = .ok ds)
    (t : Str) (ht : t ∈ ds) : TargetOk fs rp t := by
  unfold extractPythonDeps at h
  simp only [] at h
  split at h
  · cases h
  · rename_i ds0 hcol
    cases h
    rw [mem_pySetList] at ht
    obtain ⟨line, _, hline⟩ := collectSome_mem _ _ _ hcol t ht
    exact extractPythonLine_target _ _ _ _ _ hline

theorem extractJsDeps_target (fs : FS) (rp : PPath) (rel content : Str)
    (ds : List Str) (h : extractJsDeps fs rp rel content = .ok ds)
    (t : Str) (ht : t ∈ ds) : TargetOk fs rp t := by
  unfold extractJsDeps at h
  simp only [] at h
  split at h
  · cases h
  · rename_i d1 h1
    split at h
    · cases h
    · rename_i d2 h2
      cases h
      rw [mem_pySetList, List.mem_append] at ht
      rcases ht with ht | ht
      · obtain ⟨m, _, hm⟩ := collectSome_mem _ _ _ h1 t ht
        exact resolveJsModule_target _ _ _ _ _ hm
      · obtain ⟨m, _, hm⟩ := collectSome_mem _ _ _ h2 t ht
        exact resolveJsModule_target _ _ _ _ _ hm

theorem extractRustDeps_target (fs : FS) (rp : PPath) (rel content t : Str)
    (ht : t ∈ extractRustDeps fs rp rel content) : TargetOk fs rp t := by
  unfold extractRustDeps at ht
  simp only [] at ht
  rw [mem_pySetList, List.mem_append] at ht
  rcases ht with ht | ht
  · obtain ⟨m, _, hm⟩ := List.mem_filterMap.mp ht
    exact resolveRustModule_target _ _ _ _ _ hm
  · obtain ⟨m, _, hm⟩ := List.mem_filterMap.mp ht
    exact resolveRustModule_target _ _ _ _ _ hm

theorem extractGoDeps_target (fs : FS) (rp : PPath) (rel content : Str)
    (ds : List Str) (h : extractGoDeps fs rp rel content = .ok ds)
    (t : Str) (ht : t ∈ ds) : TargetOk fs rp t := by
  unfold extractGoDeps at h
  simp only [] at h
  split at h
  · cases h
  · rename_i d1 h1
    split at h
    · cases h
    · rename_i d2 h2
      cases h
      rw [mem_pySetList, List.mem_append] at ht
      rcases ht with ht | ht
      · obtain ⟨m, _, hm⟩ := collectSome_mem _ _ _ h1 t ht
        exact resolveGoPackage_target _ _ _ _ _ hm
      · obtain ⟨m, _, hm⟩ := collectSome_mem _ _ _ h2 t ht
        exact resolveGoPackage_target _ _ _ _ _ hm

theorem recordResult_target (fs : FS) (rp : PPath) (r : FileRecord) (ds : List Str)
    (h : recordResult fs rp r = .ok ds) (t : Str) (ht : t ∈ ds) : TargetOk fs rp t := by
  unfold recordResult at h
  split at h
  · split at h
    · split at h
      · cases h
        cases ht
      · cases h
    · rename_i content hread
      unfold extractDependencies at h
      split at h
      · exact extractPythonDeps_target _ _ _ _ _ h t ht
      · split at h
        · exact extractJsDeps_target _ _ _ _ _ h t ht
        · split at h
          · cases h
            exact extractRustDeps_target _ _ _ _ _ ht
          · split at h
            · exact extractGoDeps_target _ _ _ _ _ h t ht
            · cases h
              cases ht
  · cases h
    cases ht

theorem okDeps_target (fs : FS) (rp : PPath) (r : FileRecord) (t : Str)
    (ht : t ∈ okDeps fs rp r) : TargetOk fs rp t := by
  unfold okDeps at ht
  split at ht
  · rename_i ds hds
    exact recordResult_target _ _ _ _ hds t ht
  · cases ht

/-! ## Read-failure handling (`except (UnicodeDecodeError, FileNotFoundError)`) -/

theorem read_failure_record_skipped (fs : FS) (rp : PPath) (r : FileRecord) (e : Err)
    (hread : readText fs (pDiv rp (parsePath r.rel_path)) = .error e)
    (he : e = .unicodeDecodeError ∨ e = .fileNotFoundError) :
    recordResult fs rp r = .ok [] := by
  unfold recordResult
  by_cases hs : shouldAnalyze r
  · rw [if_pos hs, hread]
    show (if e = Err.unicodeDecodeError ∨ e = Err.fileNotFoundError then
      Except.ok [] else Except.error e) = Except.ok []
    rw [if_pos he]
  · rw [if_neg hs]

/-! ## The Python `import` capture stops at the first dot -/

theorem dropLit_append (a s : Str) : dropLit a (a ++ s) = some s := by
  induction a with
  | nil => rfl
  | cons c a ih => simp [dropLit, ih]

theorem space_not_word (c : Char) (h : isSpaceChar c = true) : isWordChar c = false := by
  simp only [isSpaceChar, Bool.or_eq_true, beq_iff_eq] at h
  rcases h with ((((h | h) | h) | h) | h) | h <;> subst h <;> decide

theorem word_not_space (c : Char) (h : isWordChar c = true) : isSpaceChar c = false := by
  cases hs : isSpaceChar c
  · rfl
  · rw [space_not_word c hs] at h
    cases h

theorem takeWhile_append_all {p : Char → Bool} (u v : Str)
    (hu : ∀ c ∈ u, p c = true) (hv : ∀ c, v.head? = some c → p c = false) :
    (u ++ v).takeWhile p = u ∧ (u ++ v).dropWhile p = v := by
  induction u with
  | nil =>
    simp only [List.nil_append]
    cases v with
    | nil => simp
    | cons c v2 =>
      have hc := hv c rfl
      simp [List.takeWhile_cons, List.dropWhile_cons, hc]
  | cons c u2 ih =>
    have hc := hu c (List.mem_cons_self c u2)
    have ih2 := ih (fun d hd => hu d (List.mem_cons_of_mem c hd))
    simp [List.takeWhile_cons, List.dropWhile_cons, hc, ih2.1, ih2.2]

theorem matchPyImport_first_segment (u v : Str) (hu : u ≠ [])
    (hw : ∀ c ∈ u, isWordChar c = true)
    (hv : ∀ c, v.head? = some c → isWordChar c = false) :
    matchPyImport ("import ".toList ++ u ++ v) = some u := by
  have h1 : dropLit "import".toList ("import ".toList ++ u ++ v) =
      some (' ' :: (u ++ v)) := by
    have hsp : "import ".toList ++ u ++ v = "import".toList ++ (' ' :: (u ++ v)) := by
      simp
    rw [hsp, dropLit_append]
  have hdrop : (u ++ v).dropWhile isSpaceChar = u ++ v := by
    cases u with
    | nil => cases hu rfl
    | cons c u2 =>
      have hc : isSpaceChar c = false :=
        word_not_space c (hw c (List.mem_cons_self c u2))
      simp [List.dropWhile_cons, hc]
  have h2 : skipSpaces1 (' ' :: (u ++ v)) = some (u ++ v) := by
    simp only [skipSpaces1]
    rw [if_pos (by decide)]
    rw [hdrop]
  have hth := takeWhile_append_all u v hw hv
  have huf : u.isEmpty = false := by simpa [List.isEmpty_iff] using hu
  have h3 : takeWhile1 isWordChar (u ++ v) = some (u, v) := by
    simp only [takeWhile1, hth.1, hth.2, huf]
    rfl
  unfold matchPyImport
  rw [h1]
  show (match skipSpaces1 (' ' :: (u ++ v)) with
    | none => none
    | some r2 =>
      match takeWhile1 isWordChar r2 with
      | none => none
      | some (m, _) => some m) = some u
  rw [h2]
  show (match takeWhile1 isWordChar (u ++ v) with
    | none => none
    | some (m, _) => some m) = some u
  rw [h3]

/-! ## The JS extension loop substitutes suffixes via `with_suffix` -/

/-- The value `with_suffix` returns when the name is nonempty. -/
def withSuffixD (p : PPath) (ext : Str) : PPath :=
  match pWithSuffix p ext with
  | .ok q => q
  | .error _ => p

/-- First candidate in order that exists and is a regular file, reported
as `str(test_path)`. -/
def firstHit (fs : FS) (rp : PPath) (cands : List PPath) : Option Str :=
  (cands.find? (fun c => fsExistsB fs (pDiv rp c) && fsIsFileB fs (pDiv rp c))).map pathStr

theorem pWithSuffix_eq (p : PPath) (ext : Str) (hn : pName p ≠ []) :
    pWithSuffix p ext = .ok (withSuffixD p ext) := by
  have hne : (pName p).isEmpty = false := by simpa [List.isEmpty_iff] using hn
  simp [pWithSuffix, withSuffixD, hne]

theorem tryExts_eq_firstHit (fs : FS) (rp p : PPath) (exts : List Str)
    (hn : pName p ≠ []) :
    tryExts fs rp p exts =
      .ok (firstHit fs rp
        (exts.map (fun e => if e.isEmpty then p else withSuffixD p e))) := by
  induction exts with
  | nil => simp [tryExts, firstHit]
  | cons ext rest ih =>
    have hcand : (if ext.isEmpty then Except.ok p else pWithSuffix p ext :
        Except Err PPath) = .ok (if ext.isEmpty then p else withSuffixD p ext) := by
      by_cases hext : ext.isEmpty
      · simp [hext]
      · simp [hext, pWithSuffix_eq p ext hn]
    simp only [tryExts, hcand, List.map_cons, firstHit, List.find?]
    cases hchk : (fsExistsB fs (pDiv rp (if ext.isEmpty then p else withSuffixD p ext))
        && fsIsFileB fs (pDiv rp (if ext.isEmpty then p else withSuffixD p ext))) with
    | true => simp [hchk]
    | false =>
      simp only [hchk, Bool.false_eq_true, if_false]
      rw [ih]
      simp [firstHit]

theorem resolveJs_candidates (fs : FS) (rp fd : PPath) (module : Str) (p : PPath)
    (hdot : pyStartsWith module ['.'] = true)
    (hres : pRelativeTo (pResolve fs.cwd (pDiv fd (parsePath module))) rp = some p)
    (hn : pName p ≠ []) :
    resolveJsModule fs rp fd module =
      .ok (firstHit fs rp
        (jsExts.map (fun e => if e.isEmpty then p else withSuffixD p e))) := by
  unfold resolveJsModule
  rw [hdot]
  rw [hres]
  show (if (!true && !pyStartsWith module ['/']) = true then Except.ok none
    else if true = true then tryExts fs rp p jsExts
    else tryExts fs rp (parsePath (module.dropWhile (fun c => c == '/'))) jsExts) = _
  simp only [Bool.not_true, Bool.false_and, Bool.false_eq_true, if_false, if_pos rfl]
  exact tryExts_eq_firstHit fs rp p jsExts hn

/-- Decidable equality of `Except` results, for evaluating the model on
concrete inputs. -/
instance {ε α : Type} [DecidableEq ε] [DecidableEq α] : DecidableEq (Except ε α) := fun a b =>
  match a, b with
  | .error e1, .error e2 =>
    if h : e1 = e2 then .isTrue (by rw [h]) else .isFalse (by intro hc; cases hc; exact h rfl)
  | .ok a1, .ok a2 =>
    if h : a1 = a2 then .isTrue (by rw [h]) else .isFalse (by intro hc; cases hc; exact h rfl)
  | .error _, .ok _ => .isFalse (by intro hc; cases hc)
  | .ok _, .error _ => .isFalse (by intro hc; cases hc)

/-! ## Concrete repositories and filesystems used as witnesses -/

/-- Repository root `/repo`. -/
def rpW : PPath := ⟨true, ["repo".toList]⟩

/-- `/repo` containing `a.py` (`import b`) and `b.py`. -/
def fsW : FS :=
  ⟨["repo".toList],
   [.dir ["repo".toList],
    .file ["repo".toList, "a.py".toList] (.content "import b".toList),
    .file ["repo".toList, "b.py".toList] (.content "x = 1".toList)]⟩

def recA : FileRecord := ⟨"a.py".toList, "python".toList, 8⟩

def recB : FileRecord := ⟨"b.py".toList, "python".toList, 5⟩

/-- The full snapshot of `fsW`. -/
def repoW : RepoInfo := ⟨rpW, [recA, recB]⟩

/-- The same snapshot with the two records in the opposite order. -/
def repoW2 : RepoInfo := ⟨rpW, [recB, recA]⟩

/-- The state `analyze` produces on `repoW`/`fsW`. -/
def stW : AnalyzerState :=
  ⟨[("a.py".toList, ["b.py".toList])], [("b.py".toList, ["a.py".toList])]⟩

/-- A filtered snapshot of `fsW` (as `prepare_repo` builds with
`filter_changed=True`): only `a.py` is listed, `b.py` is not. -/
def repoC2 : RepoInfo := ⟨rpW, [recA]⟩

/-- `/repo/pkg/a.py` containing `from . import b`, with `pkg/__init__.py`. -/
def fsC3 : FS :=
  ⟨["repo".toList],
   [.dir ["repo".toList], .dir ["repo".toList, "pkg".toList],
    .file ["repo".toList, "pkg".toList, "a.py".toList]
      (.content "from . import b".toList),
    .file ["repo".toList, "pkg".toList, "__init__.py".toList] (.content [])]⟩

def repoC3 : RepoInfo :=
  ⟨rpW,
   [⟨"pkg/a.py".toList, "python".toList, 16⟩,
    ⟨"pkg/__init__.py".toList, "python".toList, 0⟩]⟩

/-- `/repo/cmd/main.go` importing `"../../x"`, which escapes `/repo`. -/
def fsC4 : FS :=
  ⟨["repo".toList],
   [.dir ["repo".toList], .dir ["repo".toList, "cmd".toList],
    .file ["repo".toList, "cmd".toList, "main.go".toList]
      (.content "package main\nimport \"../../x\"\n".toList)]⟩

def repoC4 : RepoInfo := ⟨rpW, [⟨"cmd/main.go".toList, "go".toList, 30⟩]⟩

/-- `/repo/p.py` whose read raises `PermissionError`, plus a healthy file. -/
def fsC5 : FS :=
  ⟨["repo".toList],
   [.dir ["repo".toList],
    .file ["repo".toList, "p.py".toList] .permissionError,
    .file ["repo".toList, "c.py".toList] (.content "x = 1".toList)]⟩

def repoC5 : RepoInfo :=
  ⟨rpW, [⟨"p.py".toList, "python".toList, 4⟩, ⟨"c.py".toList, "python".toList, 5⟩]⟩

/-- `fsW` plus a file `d.py` whose read raises `UnicodeDecodeError`. -/
def fsW5 : FS :=
  ⟨["repo".toList],
   [.dir ["repo".toList],
    .file ["repo".toList, "a.py".toList] (.content "import b".toList),
    .file ["repo".toList, "b.py".toList] (.content "x = 1".toList),
    .file ["repo".toList, "d.py".toList] .decodeError]⟩

def recD : FileRecord := ⟨"d.py".toList, "python".toList, 3⟩

/-- `/repo/m.py` containing `import a.b.c`, with `a/b/c.py` present. -/
def fsC6 : FS :=
  ⟨["repo".toList],
   [.dir ["repo".toList], .dir ["repo".toList, "a".toList],
    .dir ["repo".toList, "a".toList, "b".toList],
    .file ["repo".toList, "a".toList, "b".toList, "c.py".toList]
      (.content "x = 1".toList),
    .file ["repo".toList, "m.py".toList] (.content "import a.b.c".toList)]⟩

def repoC6 : RepoInfo := ⟨rpW, [⟨"m.py".toList, "python".toList, 12⟩]⟩

/-- `/repo/src/util.spec.js` exists; nothing else resolvable. -/
def fsC7 : FS :=
  ⟨["repo".toList],
   [.dir ["repo".toList], .dir ["repo".toList, "src".toList],
    .file ["repo".toList, "src".toList, "util.spec.js".toList] (.content "x".toList)]⟩

/-- `/repo/src/util.ts` exists. -/
def fsC7b : FS :=
  ⟨["repo".toList],
   [.dir ["repo".toList], .dir ["repo".toList, "src".toList],
    .file ["repo".toList, "src".toList, "util.ts".toList] (.content "x".toList)]⟩

/-- The path `src/util` the resolver normalises `./util` to. -/
def pUtil : PPath := ⟨false, ["src".toList, "util".toList]⟩

/-! ## The claims -/

/-- Claim C1: after a successful `analyze`, the forward and reverse maps
are exact transposes as sets: `b ∈ get_file_dependencies(a)` iff
`a ∈ get_file_dependents(b)`, for snapshots whose relative paths are
unique (as the data model requires of `FileRecord.relative_path`). -/
theorem analyze_symmetry (repo : RepoInfo) (fs : FS) (st : AnalyzerState)
    (hnd : (repo.files.map FileRecord.rel_path).Nodup)
    (h : analyze repo fs = .ok st) (a b : Str) :
    b ∈ (get_file_dependencies st a).1 ↔ a ∈ (get_file_dependents st b).1 := by
  rw [mem_dependencies_iff repo fs st hnd h a b, mem_dependents_iff repo fs st h b a]

theorem analyze_symmetry_witness :
    (repoW.files.map FileRecord.rel_path).Nodup ∧ analyze repoW fsW = .ok stW ∧
    ("b.py".toList ∈ (get_file_dependencies stW "a.py".toList).1 ↔
      "a.py".toList ∈ (get_file_dependents stW "b.py".toList).1) :=
  ⟨by decide, by decide,
   analyze_symmetry repoW fsW stW (by decide) (by decide) "a.py".toList "b.py".toList⟩

/-- Claim C2 counterexample: with a snapshot filtered to `a.py` only (as
`prepare_repo` produces under `filter_changed`), the resolver still
consults the filesystem, so the recorded edge targets `b.py`, a path
absent from the snapshot's file list. -/
theorem edge_target_outside_snapshot :
    analyze repoC2 fsW = .ok stW ∧
    "b.py".toList ∈ (get_file_dependencies stW "a.py".toList).1 ∧
    "b.py".toList ∉ repoC2.files.map FileRecord.rel_path :=
  ⟨by decide, by decide, by decide⟩

/-- Claim C2 amended: every edge target recorded by `analyze` is the
string of a path that exists on the filesystem under the repository join
(resolvers only return existence-checked candidates); membership in the
snapshot's file list is not guaranteed when the snapshot is filtered. -/
theorem edge_targets_exist (repo : RepoInfo) (fs : FS) (st : AnalyzerState)
    (h : analyze repo fs = .ok st) (f t : Str)
    (ht : t ∈ (get_file_dependencies st f).1) :
    ∃ q : PPath, t = pathStr q ∧ fsExistsB fs (pDiv repo.path q) = true := by
  have hchar := analyzeList_dependencies fs repo.path repo.files emptyState st h f
  simp only [get_file_dependencies] at ht
  rw [hchar] at ht
  cases hda : depsAfter fs repo.path repo.files f with
  | none =>
    rw [hda] at ht
    simp [emptyState, dictGet] at ht
  | some ds =>
    rw [hda] at ht
    simp only [Option.getD_some] at ht
    obtain ⟨r, hr, hrel, hds, hne⟩ := depsAfter_some _ _ _ _ _ hda
    exact okDeps_target fs repo.path r t (by rw [hds]; exact ht)

theorem edge_targets_exist_witness :
    analyze repoW fsW = .ok stW ∧
    "b.py".toList ∈ (get_file_dependencies stW "a.py".toList).1 ∧
    ∃ q : PPath, "b.py".toList = pathStr q ∧ fsExistsB fsW (pDiv repoW.path q) = true :=
  ⟨by decide, by decide,
   edge_targets_exist repoW fsW stW (by decide) "a.py".toList "b.py".toList (by decide)⟩

/-- Claim C3 (code bug): on `pkg/a.py` containing `from . import b` with
`pkg/__init__.py` present, `analyze` raises `ValueError` instead of
recording the edge `pkg/a.py -> pkg/__init__.py`: the absolute-module
regex `^from\s+([\w.]+)\s+import` also matches the bare dot, so module
`"."` reaches `_resolve_python_module`, which builds `Path("/")` and
crashes in `with_suffix(".py")` (empty name); the relative-import branch
and `_resolve_python_relative` are unreachable for this line. -/
theorem from_dot_import_raises_valueerror :
    analyze repoC3 fsC3 = .error .valueError := by decide

/-- Claim C4 (code bug): a Go relative import whose normalised path
escapes the repository root makes `_resolve_go_package` raise
`ValueError` from `relative_to` — unlike the JS resolver, the call is
not wrapped in try/except — so `analyze` terminates abnormally instead
of treating the reference as unresolved. -/
theorem go_escape_raises_valueerror :
    analyze repoC4 fsC4 = .error .valueError := by decide

/-- Claim C5 counterexample: a permission-denied content read is not in
the caught tuple `(UnicodeDecodeError, FileNotFoundError)`, so `analyze`
terminates abnormally instead of skipping just that file. -/
theorem permission_error_aborts_analyze :
    analyze repoC5 fsC5 = .error .permissionError := by decide

/-- Claim C5 amended: a decode-error or missing-file content read skips
exactly that file — analysing a snapshot containing the failing record
yields the same result as analysing the snapshot without it, from any
state, so every other file is processed and the graph is produced; a
permission error, by contrast, is not caught (see the counterexample). -/
theorem read_failure_skips_only_that_file (fs : FS) (rp : PPath)
    (l1 l2 : List FileRecord) (r : FileRecord) (st0 : AnalyzerState) (e : Err)
    (hread : readText fs (pDiv rp (parsePath r.rel_path)) = .error e)
    (he : e = .unicodeDecodeError ∨ e = .fileNotFoundError) :
    analyzeList fs rp (l1 ++ r :: l2) st0 = analyzeList fs rp (l1 ++ l2) st0 := by
  have hrr := read_failure_record_skipped fs rp r e hread he
  induction l1 generalizing st0 with
  | nil =>
    simp only [List.nil_append, analyzeList, hrr]
    simp
  | cons a l1 ih =>
    simp only [List.cons_append, analyzeList]
    cases recordResult fs rp a with
    | error e2 => rfl
    | ok ds => exact ih _

theorem read_failure_skips_only_that_file_witness :
    readText fsW5 (pDiv rpW (parsePath recD.rel_path)) = .error .unicodeDecodeError ∧
    analyzeList fsW5 rpW ([recA] ++ recD :: [recB]) emptyState =
      analyzeList fsW5 rpW ([recA] ++ [recB]) emptyState :=
  ⟨by decide,
   read_failure_skips_only_that_file fsW5 rpW [recA] [recB] recD emptyState
     .unicodeDecodeError (by decide) (Or.inl rfl)⟩

/-- Claim C6 counterexample: the `import` pattern captures `(\w+)` — the
class has no dot — so on `import a.b.c` the capture is `a`, not `a.b.c`,
and with `a/b/c.py` present on disk no edge is produced from `m.py`. -/
theorem import_dotted_name_not_captured :
    matchPyImport "import a.b.c".toList = some "a".toList ∧
    "a".toList ≠ "a.b.c".toList ∧
    analyze repoC6 fsC6 = .ok emptyState ∧
    (get_file_dependencies emptyState "m.py".toList).1 = [] :=
  ⟨by decide, by decide, by decide, by decide⟩

/-- Claim C6 amended: the scanner captures exactly the maximal
word-character run after `import ` — the dotted name truncated at its
first dot — so resolution is attempted only for the first segment. -/
theorem import_captures_first_segment (u v : Str) (hu : u ≠ [])
    (hw : ∀ c ∈ u, isWordChar c = true)
    (hv : ∀ c, v.head? = some c → isWordChar c = false) :
    matchPyImport ("import ".toList ++ u ++ v) = some u :=
  matchPyImport_first_segment u v hu hw hv

theorem import_captures_first_segment_witness :
    ("a".toList ≠ ([] : Str)) ∧
    (∀ c ∈ "a".toList, isWordChar c = true) ∧
    (∀ c, (".b.c".toList : Str).head? = some c → isWordChar c = false) ∧
    matchPyImport ("import ".toList ++ "a".toList ++ ".b.c".toList) = some "a".toList :=
  ⟨by decide, by decide, by decide, import_captures_first_segment "a".toList
    ".b.c".toList (by decide) (by decide) (by decide)⟩

/-- Claim C7 counterexample: for specifier `./util.spec` with
`src/util.spec.js` an existing regular file — a candidate on the claim's
appended-extension list — resolution returns no edge, because
`with_suffix` replaces the existing `.spec` suffix instead of appending,
so `src/util.spec.js` is never tried. -/
theorem js_extension_replaces_not_appends :
    fsIsFileB fsC7 ⟨true, ["repo".toList, "src".toList, "util.spec.js".toList]⟩ = true ∧
    resolveJsModule fsC7 rpW (parsePath "src".toList) "./util.spec".toList = .ok none :=
  ⟨by decide, by decide⟩

/-- Claim C7 amended: for a relative specifier that resolves inside the
repository (to a path with a nonempty final component), the candidates
are tried in order — the literal path, then the path with its suffix
substituted by `.js .ts .jsx .tsx .vue` via `with_suffix` (appending
only when the final segment has no suffix) — and the first existing
regular file wins. -/
theorem js_resolution_tries_substituted_suffixes (fs : FS) (rp fd : PPath)
    (module : Str) (p : PPath)
    (hdot : pyStartsWith module ['.'] = true)
    (hres : pRelativeTo (pResolve fs.cwd (pDiv fd (parsePath module))) rp = some p)
    (hn : pName p ≠ []) :
    resolveJsModule fs rp fd module =
      .ok (firstHit fs rp
        (jsExts.map (fun e => if e.isEmpty then p else withSuffixD p e))) :=
  resolveJs_candidates fs rp fd module p hdot hres hn

theorem js_resolution_tries_substituted_suffixes_witness :
    pyStartsWith "./util".toList ['.'] = true ∧
    pRelativeTo (pResolve fsC7b.cwd (pDiv (parsePath "src".toList)
      (parsePath "./util".toList))) rpW = some pUtil ∧
    pName pUtil ≠ [] ∧
    resolveJsModule fsC7b rpW (parsePath "src".toList) "./util".toList =
      .ok (firstHit fsC7b rpW
        (jsExts.map (fun e => if e.isEmpty then pUtil else withSuffixD pUtil e))) :=
  ⟨by decide, by decide, by decide,
   js_resolution_tries_substituted_suffixes fsC7b rpW (parsePath "src".toList)
     "./util".toList pUtil (by decide) (by decide) (by decide)⟩

/-- Claim C8: the analysis is deterministic and order-independent —
two successful runs over snapshots with the same repository path, the
same unique relative paths up to permutation, and the same filesystem
produce forward and reverse maps that agree as mappings from paths to
sets of paths. -/
theorem analyze_order_independent (repo1 repo2 : RepoInfo) (fs : FS)
    (st1 st2 : AnalyzerState) (hpath : repo1.path = repo2.path)
    (hperm : repo1.files.Perm repo2.files)
    (hnd : (repo1.files.map FileRecord.rel_path).Nodup)
    (h1 : analyze repo1 fs = .ok st1) (h2 : analyze repo2 fs = .ok st2) (p x : Str) :
    (x ∈ (get_file_dependencies st1 p).1 ↔ x ∈ (get_file_dependencies st2 p).1) ∧
    (x ∈ (get_file_dependents st1 p).1 ↔ x ∈ (get_file_dependents st2 p).1) := by
  have hnd2 : (repo2.files.map FileRecord.rel_path).Nodup :=
    ((hperm.map FileRecord.rel_path).nodup_iff).mp hnd
  constructor
  · rw [mem_dependencies_iff repo1 fs st1 hnd h1 p x,
      mem_dependencies_iff repo2 fs st2 hnd2 h2 p x, hpath]
    constructor
    · rintro ⟨r, hr, hp⟩
      exact ⟨r, hperm.mem_iff.mp hr, hp⟩
    · rintro ⟨r, hr, hp⟩
      exact ⟨r, hperm.mem_iff.mpr hr, hp⟩
  · rw [mem_dependents_iff repo1 fs st1 h1 p x,
      mem_dependents_iff repo2 fs st2 h2 p x, hpath]
    constructor
    · rintro ⟨r, hr, hp⟩
      exact ⟨r, hperm.mem_iff.mp hr, hp⟩
    · rintro ⟨r, hr, hp⟩
      exact ⟨r, hperm.mem_iff.mpr hr, hp⟩

theorem analyze_order_independent_witness :
    repoW.path = repoW2.path ∧ repoW.files.Perm repoW2.files ∧
    (repoW.files.map FileRecord.rel_path).Nodup ∧
    analyze repoW fsW = .ok stW ∧ analyze repoW2 fsW = .ok stW ∧
    (("b.py".toList ∈ (get_file_dependencies stW "a.py".toList).1 ↔
      "b.py".toList ∈ (get_file_dependencies stW "a.py".toList).1) ∧
     ("b.py".toList ∈ (get_file_dependents stW "a.py".toList).1 ↔
      "b.py".toList ∈ (get_file_dependents stW "a.py".toList).1)) :=
  ⟨rfl, List.Perm.swap recB recA [], by decide, by decide, by decide,
   analyze_order_independent repoW repoW2 fsW stW stW rfl
     (List.Perm.swap recB recA []) (by decide) (by decide) (by decide)
     "a.py".toList "b.py".toList⟩

/-- Claim C9: for a path with no recorded outgoing edges the
dependencies lookup returns the empty list, and for a path with no
recorded incoming edges the dependents lookup returns the empty list
(in particular for paths absent from the snapshot); both lookups are
total functions and never raise. -/
theorem queries_empty_for_unknown (repo : RepoInfo) (fs : FS) (st : AnalyzerState)
    (h : analyze repo fs = .ok st) (p : Str)
    (hout : ∀ r ∈ repo.files, r.rel_path = p → okDeps fs repo.path r = [])
    (hin : ∀ r ∈ repo.files, p ∉ okDeps fs repo.path r) :
    (get_file_dependencies st p).1 = [] ∧ (get_file_dependents st p).1 = [] := by
  constructor
  · have hchar := analyzeList_dependencies fs repo.path repo.files emptyState st h p
    rw [depsAfter_none fs repo.path repo.files p hout] at hchar
    simpa [get_file_dependencies, emptyState, dictGet] using hchar
  · rw [List.eq_nil_iff_forall_not_mem]
    intro x
    rw [mem_dependents_iff repo fs st h p x]
    rintro ⟨r, hr, _, hb⟩
    exact hin r hr hb

theorem queries_empty_for_unknown_witness :
    analyze repoW fsW = .ok stW ∧
    (∀ r ∈ repoW.files, r.rel_path = "zzz".toList →
      okDeps fsW repoW.path r = []) ∧
    (∀ r ∈ repoW.files, "zzz".toList ∉ okDeps fsW repoW.path r) ∧
    (get_file_dependencies stW "zzz".toList).1 = [] ∧
    (get_file_dependents stW "zzz".toList).1 = [] :=
  ⟨by decide, by decide, by decide,
   queries_empty_for_unknown repoW fsW stW (by decide) "zzz".toList (by decide)
     (by decide)⟩

/-- Claim C10: the query functions use `.get` with a default, never
defaultdict indexing, so neither lookup mutates either map: the state
returned alongside the value is the input state, for every path. -/
theorem queries_leave_maps_unchanged (st : AnalyzerState) (p q : Str) :
    (get_file_dependencies st p).2 = st ∧ (get_file_dependents st q).2 = st :=
  ⟨rfl, rfl⟩
